import Mathlib

/-!
Verification of the node-splitting pipeline of
`src/xml_splitter_app_codellama_chroma.py`.

The Python source manipulates lxml element trees.  The shallow embedding
below models an lxml element as a tag, an optional direct text (the text
between the opening tag and the first child), an ordered list of child
elements, and an optional tail text.  The in-place tree mutations of the
source (`parent.remove`, `parent.insert`) are translated into pure list
operations returning the new child sequence; the external collaborators
(libxml2 parsing, XPath evaluation, the CodeLlama HTTP gateway) are passed
in as explicit function or value parameters, so that each distinct failure
site of the source maps to one constructor of the error taxonomy used by
the specification.
-/

set_option maxRecDepth 16384

/-- An lxml `_Element`: tag, direct text, children, tail text. -/
inductive Element : Type where
  | mk : String → Option String → List Element → Option String → Element

def Element.tag : Element → String
  | .mk t _ _ _ => t

def Element.text : Element → Option String
  | .mk _ x _ _ => x

def Element.children : Element → List Element
  | .mk _ _ c _ => c

def Element.tailText : Element → Option String
  | .mk _ _ _ t => t

/-- Python whitespace characters stripped by `str.strip()` (ASCII part). -/
def pySpace (c : Char) : Bool :=
  c = ' ' || c = '\t' || c = '\n' || c = '\r' || c = '\x0b' || c = '\x0c'

/-- `str.strip()` on a character list: drop whitespace on both ends. -/
def stripWs (l : List Char) : List Char :=
  ((l.dropWhile pySpace).reverse.dropWhile pySpace).reverse

/-- `str.strip()` on strings. -/
def pyStrip (s : String) : String := String.mk (stripWs s.data)

/-- Index of the first occurrence of the character `>` in a list. -/
def findGtIdx : List Char → Option Nat
  | [] => none
  | c :: cs => if c = '>' then some 0 else (findGtIdx cs).map (· + 1)

/-- One match attempt of the Python regular expression
`<\?xml[^>]+\?>` at the head of the input (line 16 of the source).
Since `[^>]+` cannot cross a `>`, the regular expression matches exactly
when the input starts with `<?xml`, the first `>` of the remainder sits at
an index `p ≥ 2`, and the character right before it is `?`.  Returns the
length of the match. -/
def tryMatchDecl (l : List Char) : Option Nat :=
  match l with
  | '<' :: '?' :: 'x' :: 'm' :: 'l' :: r =>
    match findGtIdx r with
    | none => none
    | some p => if 2 ≤ p ∧ r[p - 1]? = some '?' then some (5 + p + 1) else none
  | _ => none

/-- `re.sub` scanning for the declaration pattern: left-to-right,
non-overlapping, each match replaced by the empty string.  Structured with
explicit fuel so that the definition is structurally recursive; `subDecl`
below always supplies enough fuel (one unit per character). -/
def subDeclFuel : Nat → List Char → List Char
  | 0, l => l
  | _, [] => []
  | fuel + 1, c :: rest =>
    match tryMatchDecl (c :: rest) with
    | some n => subDeclFuel fuel (rest.drop (n - 1))
    | none => c :: subDeclFuel fuel rest

/-- `re.sub(r'<\?xml[^>]+\?>', '', s)` on a character list. -/
def subDecl (l : List Char) : List Char := subDeclFuel l.length l

/-- Line 16 of the source:
`xml_content = re.sub(r'<\?xml[^>]+\?>', '', xml_content).strip()`. -/
def stripDeclaration (s : String) : String := String.mk (stripWs (subDecl s.data))

/-- Truth value of the loop guard `element.text and element.text.strip()`
(line 65 of the source): the direct text must be present, non-empty, and
non-empty after stripping whitespace. -/
def keepElem (e : Element) : Bool :=
  match e.text with
  | none => false
  | some s => s != "" && pyStrip s != ""

/-- An element whose direct text is present and literally non-empty. -/
def nonEmptyText (e : Element) : Bool :=
  match e.text with
  | none => false
  | some s => s != ""

/-- Line 23 of the source: `node.text if node.text else ""`. -/
def textOrEmpty : Option String → String
  | none => ""
  | some s => if s == "" then "" else s

/-- lxml `parent.insert(i, a)`: insert before position `i`, appending when
`i` is at or past the end. -/
def insertAt (l : List Element) (i : Nat) (a : Element) : List Element :=
  l.take i ++ a :: l.drop i

/-- lxml `parent.remove(node)` where `node` sits at position `i`. -/
def removeAt (l : List Element) (i : Nat) : List Element :=
  l.take i ++ l.drop (i + 1)

/-- The splice loop of lines 64-67 of the source: iterate over the parsed
replacement elements in response order (the lxml child iterator prefetches
the next sibling before yielding, so moving the current element to the new
parent does not disturb the iteration) and insert each element passing the
text filter at position `idx`, then increment `idx`. -/
def spliceLoop : List Element → Nat → List Element → List Element
  | [], _, children => children
  | e :: rest, idx, children =>
    if keepElem e then spliceLoop rest (idx + 1) (insertAt children idx e)
    else spliceLoop rest idx children

/-- Lines 62-67 of the source applied to the parent's child sequence:
`index = parent.index(node)`, `parent.remove(node)`, then the insert loop. -/
def spliceChildren (siblings : List Element) (i : Nat) (reps : List Element) :
    List Element :=
  spliceLoop reps i (removeAt siblings i)

/-- Replace the child at position `i` by the image of `f`. -/
def modifyChild : List Element → Nat → (Element → Element) → List Element
  | [], _, _ => []
  | c :: cs, 0, f => f c :: cs
  | c :: cs, n + 1, f => c :: modifyChild cs n f

/-- Functional rendering of the in-place splice: the target node is
designated by its child-index path from the root (the empty path is the
root itself, which the source never reaches in its mutation code); the
parent of the target has its child sequence rewritten by
`spliceChildren`. -/
def spliceAtPath : List Nat → Element → List Element → Element
  | [], e, _ => e
  | [i], .mk tag txt cs tl, reps => .mk tag txt (spliceChildren cs i reps) tl
  | i :: rest, .mk tag txt cs tl, reps =>
    .mk tag txt (modifyChild cs i (fun c => spliceAtPath rest c reps)) tl

/-- First line of the f-string of lines 26-47 of the source: the task
framing sentence. -/
def promptTaskFraming : String :=
  "\n    Task: Split the following XML content into four categories: task, profile, offer, and contact.\n"

/-- Rules section of the f-string, up to the opening angle bracket before
the first interpolation of `node.tag`. -/
def promptRules : String :=
  "    Rules:\n    1. Maintain the original wording.\n    2. Do not add any new information.\n    3. If a category is not applicable, omit that tag entirely.\n    4. Use proper XML syntax.\n\n    Input XML:\n    <"

/-- Literal between the first `node.tag` interpolation and the
`original_content` interpolation. -/
def promptAfterTag : String := ">\n    "

/-- Literal between the `original_content` interpolation and the second
`node.tag` interpolation. -/
def promptAfterText : String := "\n    </"

/-- Closing literal of the f-string: the output-format example listing all
five category tags, and the final instruction. -/
def promptOutputFormat : String :=
  ">\n\n    Output format:\n    <introduction>Introduction content here</introduction>\n    <task>Task content here</task>\n    <profile>Profile content here</profile>\n    <offer>Offer content here</offer>\n    <contact>Contact content here</contact>\n\n    Split the content:\n    "

/-- The f-string of lines 26-47 of the source, with `node.tag` and
`original_content` interpolated; the concatenation of the literal pieces
above is character-for-character the Python literal. -/
def buildPrompt (tag text : String) : String :=
  promptTaskFraming ++ promptRules ++ tag ++ promptAfterTag ++ text
    ++ promptAfterText ++ tag ++ promptOutputFormat

/-- The specification's error taxonomy; each constructor corresponds to
one distinct failure site of `split_xml_node`:
`invalidPathExpression` for the `XPathEvalError` raised by `root.xpath` on
a syntactically invalid expression, `nodeNotFound` for the `IndexError`
raised by `[0]` on an empty match list, `cannotSplitRoot` for the
`AttributeError` raised by `parent.index(node)` when `node.getparent()`
returned `None`, `modelUnavailable` for the explicit
`raise Exception(...)` when the gateway returned `None`, and
`invalidModelOutput` for the explicit `raise Exception(...)` in the
`except etree.XMLSyntaxError` handler. -/
inductive SplitError : Type where
  | malformedDocument
  | invalidPathExpression
  | nodeNotFound
  | cannotSplitRoot
  | modelUnavailable
  | invalidModelOutput
deriving DecidableEq

/-- Line 22 of the source: `node = root.xpath(node_path)[0]`.  The XPath
evaluation itself is external (libxml2); its outcome is passed in:
`none` models the `XPathEvalError` raised on a syntactically invalid
expression, `some ms` the match list in document order.  Indexing `[0]`
raises `IndexError` on an empty list and otherwise yields the head. -/
def locateNode {α : Type} (xpathRes : Option (List α)) : Except SplitError α :=
  match xpathRes with
  | none => .error .invalidPathExpression
  | some [] => .error .nodeNotFound
  | some (m :: _) => .ok m

/-- Line 56 of the source wraps the raw response in a synthetic root tag:
`f"<root>{split_content}</root>"`. -/
def wrapResponse (s : String) : String := "<root>" ++ s ++ "</root>"

/-- Lines 55-58 of the source: the strict (default, non-recovering)
`etree.fromstring` call on the wrapped response, with the
`except etree.XMLSyntaxError` handler re-raising as the invalid-model-output
failure; on success the loop of line 64 consumes the children of the
synthetic root in order. -/
def parseModelResponse (strictParse : String → Option Element)
    (split_content : String) : Except SplitError (List Element) :=
  match strictParse (wrapResponse split_content) with
  | none => .error .invalidModelOutput
  | some split_root => .ok split_root.children

/-- Lines 22-69 of the source (`split_xml_node` after document loading):
locate the target via XPath, build the prompt, call the gateway, parse the
response, then splice.  `xpathRes` carries each match together with its
child-index path from `root` ([] designates the root itself, i.e. a node
whose `getparent()` is `None`); `gateway` models `ask_codellama` (`none` is
its `None` return), `strictParse` models the strict `etree.fromstring`.
The statement order matches the source: the mutation (`spliceAtPath`) is
reached only after every failure site has been passed. -/
def splitXmlNode (root : Element) (xpathRes : Option (List (Element × List Nat)))
    (gateway : String → Option String) (strictParse : String → Option Element) :
    Except SplitError Element :=
  match locateNode xpathRes with
  | .error e => .error e
  | .ok (node, p) =>
    match gateway (buildPrompt node.tag (textOrEmpty node.text)) with
    | none => .error .modelUnavailable
    | some split_content =>
      match parseModelResponse strictParse split_content with
      | .error e => .error e
      | .ok reps =>
        match p with
        | [] => .error .cannotSplitRoot
        | q :: qs => .ok (spliceAtPath (q :: qs) root reps)

/-! ### Helper lemmas about the splice -/

theorem length_insertAt (l : List Element) (i : Nat) (a : Element)
    (h : i ≤ l.length) : (insertAt l i a).length = l.length + 1 := by
  simp [insertAt]
  omega

theorem take_insertAt (l : List Element) (i : Nat) (a : Element)
    (h : i ≤ l.length) : (insertAt l i a).take (i + 1) = l.take i ++ [a] := by
  rw [insertAt, List.take_append_eq_append_take]
  have h1 : (l.take i).length = i := by simp [h]
  rw [h1, List.take_of_length_le (by omega)]
  simp

theorem drop_insertAt (l : List Element) (i : Nat) (a : Element)
    (h : i ≤ l.length) : (insertAt l i a).drop (i + 1) = l.drop i := by
  rw [insertAt, List.drop_append_eq_append_drop]
  have h1 : (l.take i).length = i := by simp [h]
  rw [h1, List.drop_eq_nil_of_le (by omega)]
  simp

theorem spliceLoop_eq (reps : List Element) : ∀ (idx : Nat) (children : List Element),
    idx ≤ children.length →
    spliceLoop reps idx children =
      children.take idx ++ reps.filter keepElem ++ children.drop idx := by
  induction reps with
  | nil =>
    intro idx children _
    simp [spliceLoop]
  | cons e rest ih =>
    intro idx children h
    by_cases hk : keepElem e
    · rw [spliceLoop, if_pos hk,
        ih (idx + 1) (insertAt children idx e) (by rw [length_insertAt _ _ _ h]; omega),
        take_insertAt _ _ _ h, drop_insertAt _ _ _ h, List.filter_cons_of_pos hk]
      simp
    · rw [spliceLoop, if_neg hk, ih idx children h,
        List.filter_cons_of_neg (by simpa using hk)]

theorem spliceChildren_eq (siblings : List Element) (i : Nat) (reps : List Element)
    (h : i < siblings.length) :
    spliceChildren siblings i reps =
      siblings.take i ++ reps.filter keepElem ++ siblings.drop (i + 1) := by
  have htake : (siblings.take i).length = i := by simp [h.le]
  rw [spliceChildren, removeAt, spliceLoop_eq _ _ _ (by simp [htake])]
  have h2 : (siblings.take i ++ siblings.drop (i + 1)).take i = siblings.take i := by
    rw [List.take_append_eq_append_take, htake, List.take_of_length_le (by omega)]
    simp
  have h3 : (siblings.take i ++ siblings.drop (i + 1)).drop i = siblings.drop (i + 1) := by
    rw [List.drop_append_eq_append_drop, htake, List.drop_eq_nil_of_le (by omega)]
    simp
  rw [h2, h3]

theorem mem_spliceChildren (siblings : List Element) (i : Nat) (reps : List Element)
    (h : i < siblings.length) (e : Element)
    (he : e ∈ spliceChildren siblings i reps) :
    e ∈ siblings ∨ e ∈ reps.filter keepElem := by
  rw [spliceChildren_eq _ _ _ h] at he
  rcases List.mem_append.mp he with h1 | h2
  · rcases List.mem_append.mp h1 with h3 | h4
    · exact Or.inl (List.take_subset i siblings h3)
    · exact Or.inr h4
  · exact Or.inl (List.drop_subset (i + 1) siblings h2)

/-! ### Sample elements for the concrete witnesses -/

def sampleIntro : Element := .mk "introduction" (some "Welcome.") [] none

def sampleTarget : Element := .mk "description" (some "We need a skilled engineer.") [] none

def sampleFooter : Element := .mk "footer" (some "Bye.") [] none

def sampleTask : Element := .mk "task" (some "We need a skilled engineer.") [] none

def sampleOffer : Element := .mk "offer" (some "Competitive salary.") [] none

def sampleBlank : Element := .mk "profile" (some "   ") [] none

/-! ### Claim theorems -/

/-- C1: for a well-formed parent child sequence with the target at sibling
index `i` and a parsed model response whose non-empty replacement elements
number `k`, after the splice the replacements occupy positions `[i, i+k)`
of the parent's child sequence in the order the model produced them, the
original siblings before `i` keep their positions, and the original
siblings after the target shift by exactly `k - 1`. -/
theorem splice_replacement_positions (siblings : List Element) (i : Nat)
    (reps : List Element) (h : i < siblings.length) :
    (∀ j, j < i → (spliceChildren siblings i reps)[j]? = siblings[j]?)
    ∧ (∀ j, j < (reps.filter keepElem).length →
        (spliceChildren siblings i reps)[i + j]? = (reps.filter keepElem)[j]?)
    ∧ (∀ j, i < j → j < siblings.length →
        (spliceChildren siblings i reps)[j + (reps.filter keepElem).length - 1]? =
          siblings[j]?) := by
  have htake : (siblings.take i).length = i := by simp [h.le]
  have hlen : (siblings.take i ++ reps.filter keepElem).length =
      i + (reps.filter keepElem).length := by simp [htake]
  refine ⟨?_, ?_, ?_⟩
  · intro j hj
    rw [spliceChildren_eq _ _ _ h,
      List.getElem?_append_left (by rw [hlen]; omega),
      List.getElem?_append_left (by rw [htake]; omega)]
    simp [List.getElem?_take, hj]
  · intro j hj
    rw [spliceChildren_eq _ _ _ h,
      List.getElem?_append_left (by rw [hlen]; omega),
      List.getElem?_append_right (by rw [htake]; omega), htake]
    congr 1
    omega
  · intro j hij hjlen
    rw [spliceChildren_eq _ _ _ h,
      List.getElem?_append_right (by rw [hlen]; omega), hlen,
      List.getElem?_drop]
    congr 1
    omega

/-- Witness for C1 at a concrete input: three siblings with the target in
the middle, three replacements of which the middle one is
whitespace-only.  -/
theorem splice_replacement_positions_witness :
    (1 : Nat) < ([sampleIntro, sampleTarget, sampleFooter] : List Element).length
    ∧ ((∀ j, j < 1 →
          (spliceChildren [sampleIntro, sampleTarget, sampleFooter] 1
            [sampleTask, sampleBlank, sampleOffer])[j]? =
            ([sampleIntro, sampleTarget, sampleFooter] : List Element)[j]?)
      ∧ (∀ j, j < (([sampleTask, sampleBlank, sampleOffer] : List Element).filter keepElem).length →
          (spliceChildren [sampleIntro, sampleTarget, sampleFooter] 1
            [sampleTask, sampleBlank, sampleOffer])[1 + j]? =
            (([sampleTask, sampleBlank, sampleOffer] : List Element).filter keepElem)[j]?)
      ∧ (∀ j, 1 < j → j < ([sampleIntro, sampleTarget, sampleFooter] : List Element).length →
          (spliceChildren [sampleIntro, sampleTarget, sampleFooter] 1
            [sampleTask, sampleBlank, sampleOffer])[j + (([sampleTask, sampleBlank, sampleOffer] : List Element).filter keepElem).length - 1]? =
            ([sampleIntro, sampleTarget, sampleFooter] : List Element)[j]?)) :=
  ⟨by decide,
    splice_replacement_positions [sampleIntro, sampleTarget, sampleFooter] 1
      [sampleTask, sampleBlank, sampleOffer] (by decide)⟩

theorem keepElem_imp_nonEmptyText (e : Element) (h : keepElem e = true) :
    nonEmptyText e = true := by
  cases e with
  | mk tag txt cs tl =>
    cases txt with
    | none => simp [keepElem, Element.text] at h
    | some s =>
      simp only [keepElem, Element.text, Bool.and_eq_true] at h
      simpa [nonEmptyText, Element.text] using h.1

/-- C2: a parsed replacement element whose direct text is empty or
whitespace-only is skipped by the splicer and never inserted into the
output child sequence, so the number of spliced-in elements is at most the
number of elements of the parsed response with non-empty direct text. -/
theorem empty_replacements_skipped (siblings : List Element) (i : Nat)
    (reps : List Element) (h : i < siblings.length) :
    (∀ e, e ∈ reps → keepElem e = false → e ∉ siblings →
        e ∉ spliceChildren siblings i reps)
    ∧ (reps.filter keepElem).length ≤ (reps.filter nonEmptyText).length := by
  constructor
  · intro e _ hkeep hnot hres
    rcases mem_spliceChildren siblings i reps h e hres with h1 | h2
    · exact hnot h1
    · rw [(List.mem_filter.mp h2).2] at hkeep
      exact Bool.noConfusion hkeep
  · rw [← List.countP_eq_length_filter, ← List.countP_eq_length_filter]
    exact List.countP_mono_left fun a _ ha => keepElem_imp_nonEmptyText a ha

/-- Witness for C2 at a concrete input: a single whitespace-only
replacement is never inserted, and the count bound holds. -/
theorem empty_replacements_skipped_witness :
    (0 : Nat) < ([sampleTarget] : List Element).length
    ∧ ((∀ e, e ∈ ([sampleBlank] : List Element) → keepElem e = false →
          e ∉ ([sampleTarget] : List Element) →
          e ∉ spliceChildren [sampleTarget] 0 [sampleBlank])
      ∧ (([sampleBlank] : List Element).filter keepElem).length ≤
          (([sampleBlank] : List Element).filter nonEmptyText).length) :=
  ⟨by decide, empty_replacements_skipped [sampleTarget] 0 [sampleBlank] (by decide)⟩

/-- C10: the splicer's emptiness filter inspects only the element's direct
text: it is insensitive to the children and the tail text, it rejects an
element with absent direct text, it rejects an element whose direct text
strips to the empty string, and a rejected element is not inserted by the
splice even when it has non-empty child elements or tail text. -/
theorem filter_inspects_direct_text_only (tag : String) (txt : Option String)
    (cs cs2 : List Element) (tl tl2 : Option String) :
    keepElem (.mk tag txt cs tl) = keepElem (.mk tag txt cs2 tl2)
    ∧ keepElem (.mk tag none cs tl) = false
    ∧ (∀ s, pyStrip s = "" → keepElem (.mk tag (some s) cs tl) = false)
    ∧ (∀ siblings i reps, i < siblings.length →
        keepElem (.mk tag txt cs tl) = false →
        Element.mk tag txt cs tl ∉ siblings →
        Element.mk tag txt cs tl ∉ spliceChildren siblings i reps) := by
  refine ⟨rfl, rfl, ?_, ?_⟩
  · intro s hs
    have hb : (pyStrip s != "") = false := by simp [hs]
    simp [keepElem, Element.text, hb]
  · intro siblings i reps hi hkeep hnot hres
    rcases mem_spliceChildren siblings i reps hi _ hres with h1 | h2
    · exact hnot h1
    · rw [(List.mem_filter.mp h2).2] at hkeep
      exact Bool.noConfusion hkeep

/-- Witness for C10 at a concrete input: an element with absent direct
text but a non-empty child and a tail text. -/
theorem filter_inspects_direct_text_only_witness :
    keepElem (.mk "profile" none [sampleTask] (some "tail text")) = false :=
  (filter_inspects_direct_text_only "profile" none [sampleTask] [] (some "tail text") none).2.1

/-- A document whose root has the sample target as its only child. -/
def sampleDoc : Element := .mk "job" none [sampleTarget] none

/-- A parsed synthetic root carrying two replacement elements. -/
def sampleParsed : Element := .mk "root" none [sampleTask, sampleOffer] none

/-- C5: the node locator maps the XPath evaluation error on a
syntactically invalid expression to `invalidPathExpression` and an empty
match list to `nodeNotFound` (the `IndexError` of `[0]`), both at the
locator and through the whole pipeline: a zero-match expression never
yields a silent empty result. -/
theorem locator_never_silent (root : Element) (gateway : String → Option String)
    (strictParse : String → Option Element) :
    @locateNode (Element × List Nat) none = Except.error SplitError.invalidPathExpression
    ∧ @locateNode (Element × List Nat) (some []) = Except.error SplitError.nodeNotFound
    ∧ splitXmlNode root none gateway strictParse =
        Except.error SplitError.invalidPathExpression
    ∧ splitXmlNode root (some []) gateway strictParse =
        Except.error SplitError.nodeNotFound :=
  ⟨rfl, rfl, rfl, rfl⟩

/-- C6: for a non-empty match list the locator returns exactly the head -
the first match in document order - and the pipeline operates on that
head: with a successful gateway call and response parse, the splice is
applied at the first match's position. -/
theorem first_match_wins (root node : Element) (p : List Nat)
    (ms : List (Element × List Nat)) (gateway : String → Option String)
    (strictParse : String → Option Element) :
    locateNode (some ((node, p) :: ms)) = Except.ok (node, p)
    ∧ (∀ s sr q qs, p = q :: qs →
        gateway (buildPrompt node.tag (textOrEmpty node.text)) = some s →
        strictParse (wrapResponse s) = some sr →
        splitXmlNode root (some ((node, p) :: ms)) gateway strictParse =
          Except.ok (spliceAtPath p root sr.children)) := by
  refine ⟨rfl, ?_⟩
  intro s sr q qs hp hg hsp
  subst hp
  simp [splitXmlNode, locateNode, hg, parseModelResponse, hsp]

/-- Witness for C6 at a concrete input: two matches in the list, the head
is located and spliced. -/
theorem first_match_wins_witness :
    locateNode (some [(sampleTarget, [0]), (sampleFooter, [1])]) =
      Except.ok (sampleTarget, ([0] : List Nat))
    ∧ splitXmlNode sampleDoc (some [(sampleTarget, [0]), (sampleFooter, [1])])
        (fun _ => some "resp") (fun _ => some sampleParsed) =
        Except.ok (spliceAtPath [0] sampleDoc sampleParsed.children) :=
  ⟨(first_match_wins sampleDoc sampleTarget [0] [(sampleFooter, [1])]
      (fun _ => some "resp") (fun _ => some sampleParsed)).1,
    (first_match_wins sampleDoc sampleTarget [0] [(sampleFooter, [1])]
      (fun _ => some "resp") (fun _ => some sampleParsed)).2
      "resp" sampleParsed 0 [] rfl rfl rfl⟩

/-- C4: when the path expression resolves to the document root (empty
child-index path, i.e. a node whose `getparent()` is `None`), the split
fails with `cannotSplitRoot` once the pipeline reaches the splice step; the
splice itself is never attempted and no tree is produced. -/
theorem root_split_rejected (root node : Element) (ms : List (Element × List Nat))
    (gateway : String → Option String) (strictParse : String → Option Element)
    (s : String) (sr : Element)
    (hg : gateway (buildPrompt node.tag (textOrEmpty node.text)) = some s)
    (hsp : strictParse (wrapResponse s) = some sr) :
    splitXmlNode root (some ((node, []) :: ms)) gateway strictParse =
      Except.error SplitError.cannotSplitRoot := by
  simp [splitXmlNode, locateNode, hg, parseModelResponse, hsp]

/-- Witness for C4 at a concrete input: the match is the root itself. -/
theorem root_split_rejected_witness :
    ((fun _ : String => some "resp") (buildPrompt sampleDoc.tag (textOrEmpty sampleDoc.text))
        = some "resp")
    ∧ ((fun _ : String => some sampleParsed) (wrapResponse "resp") = some sampleParsed)
    ∧ splitXmlNode sampleDoc (some [(sampleDoc, [])]) (fun _ => some "resp")
        (fun _ => some sampleParsed) = Except.error SplitError.cannotSplitRoot :=
  ⟨rfl, rfl,
    root_split_rejected sampleDoc sampleDoc [] (fun _ => some "resp")
      (fun _ => some sampleParsed) "resp" sampleParsed rfl rfl⟩

/-- C3: when the gateway response does not parse as well-formed markup the
split fails with `invalidModelOutput`, and the pipeline commits nothing
partially: every successful run is the full splice of a parsed response at
a non-root target, so on any failure no mutated tree is observable. -/
theorem atomic_commit (root : Element) (xpathRes : Option (List (Element × List Nat)))
    (gateway : String → Option String) (strictParse : String → Option Element) :
    (∀ node p ms s, xpathRes = some ((node, p) :: ms) →
        gateway (buildPrompt node.tag (textOrEmpty node.text)) = some s →
        strictParse (wrapResponse s) = none →
        splitXmlNode root xpathRes gateway strictParse =
          Except.error SplitError.invalidModelOutput)
    ∧ (∀ result, splitXmlNode root xpathRes gateway strictParse = Except.ok result →
        ∃ node p ms s sr, xpathRes = some ((node, p) :: ms)
          ∧ gateway (buildPrompt node.tag (textOrEmpty node.text)) = some s
          ∧ strictParse (wrapResponse s) = some sr
          ∧ p ≠ []
          ∧ result = spliceAtPath p root sr.children) := by
  constructor
  · intro node p ms s hx hg hsp
    subst hx
    simp [splitXmlNode, locateNode, hg, parseModelResponse, hsp]
  · intro result hres
    cases hx : xpathRes with
    | none =>
      rw [hx] at hres
      simp [splitXmlNode, locateNode] at hres
    | some ms0 =>
      cases ms0 with
      | nil =>
        rw [hx] at hres
        simp [splitXmlNode, locateNode] at hres
      | cons m ms =>
        obtain ⟨node, p⟩ := m
        rw [hx] at hres
        cases hg : gateway (buildPrompt node.tag (textOrEmpty node.text)) with
        | none =>
          simp [splitXmlNode, locateNode, hg] at hres
        | some s =>
          cases hsp : strictParse (wrapResponse s) with
          | none =>
            simp [splitXmlNode, locateNode, hg, parseModelResponse, hsp] at hres
          | some sr =>
            cases p with
            | nil =>
              simp [splitXmlNode, locateNode, hg, parseModelResponse, hsp] at hres
            | cons q qs =>
              refine ⟨node, q :: qs, ms, s, sr, rfl, hg, hsp, by simp, ?_⟩
              simp [splitXmlNode, locateNode, hg, parseModelResponse, hsp] at hres
              exact hres.symm

/-- Witness for C3 at a concrete input: a gateway response that fails the
strict parse yields `invalidModelOutput`. -/
theorem atomic_commit_witness :
    splitXmlNode sampleDoc (some [(sampleTarget, [0])]) (fun _ => some "<task>broken")
      (fun _ => none) = Except.error SplitError.invalidModelOutput :=
  (atomic_commit sampleDoc (some [(sampleTarget, [0])]) (fun _ => some "<task>broken")
    (fun _ => none)).1 sampleTarget [0] [] "<task>broken" rfl rfl rfl

/-- C7: the response parser wraps the raw response text in a single
synthetic root tag; if the strict parse of the wrapped text fails it
returns `invalidModelOutput`, otherwise it yields the synthetic root's
child elements in the order they appear in the response. -/
theorem response_parser_wrapped_strict (strictParse : String → Option Element)
    (s : String) :
    wrapResponse s = "<root>" ++ s ++ "</root>"
    ∧ (strictParse (wrapResponse s) = none →
        parseModelResponse strictParse s = Except.error SplitError.invalidModelOutput)
    ∧ (∀ r, strictParse (wrapResponse s) = some r →
        parseModelResponse strictParse s = Except.ok r.children) := by
  refine ⟨rfl, ?_, ?_⟩
  · intro h
    simp [parseModelResponse, h]
  · intro r h
    simp [parseModelResponse, h]

/-- Witness for C7 at a concrete input: an unparseable response is
rejected as `invalidModelOutput`. -/
theorem response_parser_wrapped_strict_witness :
    ((fun _ : String => (none : Option Element)) (wrapResponse "<task>broken") = none)
    ∧ parseModelResponse (fun _ => none) "<task>broken" =
        Except.error SplitError.invalidModelOutput :=
  ⟨rfl, (response_parser_wrapped_strict (fun _ => none) "<task>broken").2.1 rfl⟩

/-! ### Lemmas about the declaration-stripping step -/

theorem subDeclFuel_nil (fuel : Nat) : subDeclFuel fuel [] = [] := by
  cases fuel <;> rfl

theorem subDeclFuel_fuel_irrel : ∀ (f1 f2 : Nat) (l : List Char),
    l.length ≤ f1 → l.length ≤ f2 → subDeclFuel f1 l = subDeclFuel f2 l := by
  intro f1
  induction f1 with
  | zero =>
    intro f2 l h1 _
    cases l with
    | nil => rw [subDeclFuel_nil, subDeclFuel_nil]
    | cons c cs => simp at h1
  | succ f ih =>
    intro f2 l h1 h2
    cases l with
    | nil => rw [subDeclFuel_nil, subDeclFuel_nil]
    | cons c rest =>
      cases f2 with
      | zero => simp at h2
      | succ g =>
        have hr1 : rest.length ≤ f := by simp at h1; omega
        have hr2 : rest.length ≤ g := by simp at h2; omega
        cases hm : tryMatchDecl (c :: rest) with
        | some n =>
          simp only [subDeclFuel, hm]
          have hd : (rest.drop (n - 1)).length ≤ rest.length := by
            simp [List.length_drop]
          exact ih g _ (hd.trans hr1) (hd.trans hr2)
        | none =>
          simp only [subDeclFuel, hm]
          rw [ih g rest hr1 hr2]

theorem findGtIdx_no_gt (u rest : List Char) (hgt : ∀ c ∈ u, c ≠ '>') :
    findGtIdx (u ++ '?' :: '>' :: rest) = some (u.length + 1) := by
  induction u with
  | nil =>
    rw [List.nil_append, findGtIdx, if_neg (by decide), findGtIdx, if_pos rfl]
    rfl
  | cons c u ih =>
    have hc : c ≠ '>' := hgt c (List.mem_cons_self c u)
    rw [List.cons_append, findGtIdx, if_neg hc,
      ih fun d hd => hgt d (List.mem_cons_of_mem c hd)]
    simp

theorem tryMatchDecl_decl (u rest : List Char) (hu : u ≠ [])
    (hgt : ∀ c ∈ u, c ≠ '>') :
    tryMatchDecl ('<' :: '?' :: 'x' :: 'm' :: 'l' :: (u ++ '?' :: '>' :: rest)) =
      some (u.length + 7) := by
  have hulen : 1 ≤ u.length := by
    cases u with
    | nil => exact absurd rfl hu
    | cons _ _ => simp
  have hb : (u ++ '?' :: '>' :: rest)[u.length + 1 - 1]? = some '?' := by
    have : u.length + 1 - 1 = u.length := by omega
    rw [this, List.getElem?_append_right (Nat.le_refl _)]
    simp
  simp only [tryMatchDecl, findGtIdx_no_gt u rest hgt]
  rw [if_pos ⟨by omega, hb⟩]
  congr 1
  omega

/-- C8 amended: a leading declaration, when present, is entirely removed:
the loader's preprocessing of a text starting with a `<?xml ... ?>`
declaration coincides with its preprocessing of the remainder (which is
itself scanned for further declarations and finally trimmed of surrounding
whitespace).  Here `u` is the declaration body matched by `[^>]+` minus
its final `?`: non-empty and free of `>`. -/
theorem declaration_stripping_amended (u rest : List Char) (hu : u ≠ [])
    (hgt : ∀ c ∈ u, c ≠ '>') :
    stripDeclaration (String.mk ('<' :: '?' :: 'x' :: 'm' :: 'l' :: (u ++ '?' :: '>' :: rest)))
      = stripDeclaration (String.mk rest) := by
  have key : subDecl ('<' :: '?' :: 'x' :: 'm' :: 'l' :: (u ++ '?' :: '>' :: rest))
      = subDecl rest := by
    have hm := tryMatchDecl_decl u rest hu hgt
    have hdrop : ('?' :: 'x' :: 'm' :: 'l' :: (u ++ '?' :: '>' :: rest)).drop (u.length + 7 - 1)
        = rest := by
      have hshape : ('?' :: 'x' :: 'm' :: 'l' :: (u ++ '?' :: '>' :: rest))
          = ('?' :: 'x' :: 'm' :: 'l' :: (u ++ ['?', '>'])) ++ rest := by
        simp
      have hlen : ('?' :: 'x' :: 'm' :: 'l' :: (u ++ ['?', '>'])).length = u.length + 7 - 1 := by
        simp
        try omega
      rw [hshape, ← hlen, List.drop_left]
    have hlen2 : ('<' :: '?' :: 'x' :: 'm' :: 'l' :: (u ++ '?' :: '>' :: rest)).length
        = u.length + 6 + rest.length + 1 := by
      simp
      try omega
    rw [subDecl, subDecl, hlen2]
    simp only [subDeclFuel, hm]
    rw [hdrop]
    exact subDeclFuel_fuel_irrel _ _ rest (by omega) (Nat.le_refl _)
  simp only [stripDeclaration, key]

/-- C8 counterexample: an input with no leading declaration is still
altered by the stripping step - the declaration-shaped substring in the
middle of the text is removed as well, so the remainder is not left
unaltered as the claim states. -/
theorem declaration_stripping_not_leading_only :
    stripDeclaration "<a><?xml a?></a>" = "<a></a>"
    ∧ "<a></a>" ≠ "<a><?xml a?></a>" :=
  ⟨by decide, by decide⟩

/-- Witness for the amended C8 at a concrete input. -/
theorem declaration_stripping_amended_witness :
    ([' ', 'a'] ≠ ([] : List Char))
    ∧ (∀ c ∈ ([' ', 'a'] : List Char), c ≠ '>')
    ∧ stripDeclaration (String.mk ('<' :: '?' :: 'x' :: 'm' :: 'l' ::
        ([' ', 'a'] ++ '?' :: '>' :: "<a/>".data))) = stripDeclaration (String.mk "<a/>".data) :=
  ⟨by decide, by decide,
    declaration_stripping_amended [' ', 'a'] "<a/>".data (by decide) (by decide)⟩

theorem contains_append_left {n l2 : List Char} (l1 : List Char)
    (h : ∃ s t, s ++ n ++ t = l2) : ∃ s t, s ++ n ++ t = l1 ++ l2 := by
  obtain ⟨s, t, rfl⟩ := h
  exact ⟨l1 ++ s, t, by simp⟩

/-- C9: for every target tag and text, the built instruction starts with
the task framing sentence, whose category enumeration names exactly
"task, profile, offer, and contact" and does not mention "introduction",
while the output-format example embedded in the instruction contains all
five category tags, `<introduction>` included. -/
theorem prompt_enumerates_four_categories (tag text : String) :
    (∃ rest, buildPrompt tag text = promptTaskFraming ++ rest)
    ∧ (∃ s t, s ++ "task, profile, offer, and contact".data ++ t = promptTaskFraming.data)
    ∧ (¬ ∃ s t, s ++ "introduction".data ++ t = promptTaskFraming.data)
    ∧ (∀ c ∈ (["<introduction>", "<task>", "<profile>", "<offer>", "<contact>"] : List String),
        ∃ s t, s ++ c.data ++ t = (buildPrompt tag text).data) := by
  refine ⟨?_, ?_, ?_, ?_⟩
  · exact ⟨promptRules ++ tag ++ promptAfterTag ++ text ++ promptAfterText ++ tag
      ++ promptOutputFormat, by simp [buildPrompt, String.append_assoc]⟩
  · exact (by decide : ("task, profile, offer, and contact".data <:+: promptTaskFraming.data))
  · exact (by decide : ¬ ("introduction".data <:+: promptTaskFraming.data))
  · intro c hc
    have hdata : (buildPrompt tag text).data =
        promptTaskFraming.data ++ (promptRules.data ++ (tag.data ++ (promptAfterTag.data
          ++ (text.data ++ (promptAfterText.data ++ (tag.data ++ promptOutputFormat.data)))))) := by
      simp [buildPrompt, String.data_append, List.append_assoc]
    rw [hdata]
    simp only [List.mem_cons, List.not_mem_nil, or_false] at hc
    rcases hc with rfl | rfl | rfl | rfl | rfl
    · iterate 7 apply contains_append_left
      exact (by decide : ("<introduction>".data <:+: promptOutputFormat.data))
    · iterate 7 apply contains_append_left
      exact (by decide : ("<task>".data <:+: promptOutputFormat.data))
    · iterate 7 apply contains_append_left
      exact (by decide : ("<profile>".data <:+: promptOutputFormat.data))
    · iterate 7 apply contains_append_left
      exact (by decide : ("<offer>".data <:+: promptOutputFormat.data))
    · iterate 7 apply contains_append_left
      exact (by decide : ("<contact>".data <:+: promptOutputFormat.data))

/-- Witness for C9 at a concrete input: `<introduction>` is one of the
five example tags and occurs in the built instruction. -/
theorem prompt_enumerates_four_categories_witness :
    ("<introduction>" ∈ (["<introduction>", "<task>", "<profile>", "<offer>", "<contact>"] : List String))
    ∧ (∃ s t, s ++ "<introduction>".data ++ t =
        (buildPrompt "description" "We need a skilled engineer.").data) :=
  ⟨by simp,
    (prompt_enumerates_four_categories "description" "We need a skilled engineer.").2.2.2
      "<introduction>" (by simp)⟩
